import Mathlib

/-!
Verification of the Voronoi cell pipeline of `geonetworkx`
(`geonetworkx/utils/voronoi_utils.py`).

The Python module is shallowly embedded below.  External libraries
(`shapely`, `pyvoronoi`, `numpy`) are modelled at their interface boundary:
their operations appear as explicit record fields or function arguments, and
all repository-owned control flow (branching, looping, exception
propagation, index bookkeeping) is translated directly from the source.
Coordinates are rationals in the computable part of the embedding and reals
in the part that needs Euclidean norms (`clip_infinite_edge`).
-/

namespace Geonetworkx

/-- Shapely geometry values as seen by the aggregation code: a tagged value
carrying polygon payloads of type `β`.  `polygon` models a shapely `Polygon`,
`multiPolygon` a `MultiPolygon`, and `geometryCollection` a
`GeometryCollection` whose members (all polygonal in this pipeline) are kept
directly. -/
inductive SGeom (β : Type) where
  | polygon : β → SGeom β
  | multiPolygon : List β → SGeom β
  | geometryCollection : List β → SGeom β
deriving DecidableEq, Repr

/-- Interface of the external `shapely` / `numpy` operations used by
`voronoi_utils.py`.  `L` is the type of line geometries (`LineString` or
`MultiLineString` values), `G` the type of polygonal geometries.  Each field
models one library call appearing in the source:
`is_simple` = `.is_simple`, `selfIntersection` = `line.intersection(line)`,
`isLineString`/`isMultiLineString` = the `geom_type` tests, `linemerge`,
`parts` = `list(mls)`, `mkMultiLineString` = `MultiLineString(...)`,
`bufferContains line tol s` = `line.buffer(tol, 1).contains(s)`,
`coords` = `list(s.coords)`, `boundsOf` = `.bounds` (as two corner points),
`mkPolygon` = `Polygon(coords)`, `box`, `is_valid`, `exterior`,
`intersection`, `polygonize`, `mkMultiPolygon`, `buffer0` = `.buffer(0.0)`,
`isPolygonInst` = `isinstance(g, Polygon)`,
`isGeometryCollectionInst` = `isinstance(g, GeometryCollection)`,
`gcLength` = `len(g)`, `multiPolygonOfCollection` = `MultiPolygon(g)`,
`cascadedUnion` = `cascaded_union(list)`. -/
structure ShapelyOps (L G : Type) where
  is_simple : L → Bool
  selfIntersection : L → L
  isLineString : L → Bool
  isMultiLineString : L → Bool
  linemerge : L → L
  parts : L → List L
  mkMultiLineString : List L → L
  bufferContains : L → ℚ → L → Bool
  coords : L → List (ℚ × ℚ)
  boundsOf : L → (ℚ × ℚ) × (ℚ × ℚ)
  mkPolygon : List (ℚ × ℚ) → G
  box : ℚ → ℚ → ℚ → ℚ → G
  is_valid : G → Bool
  exterior : G → G
  intersection : G → G → G
  polygonize : G → List G
  mkMultiPolygon : List G → G
  buffer0 : G → G
  isPolygonInst : G → Bool
  isGeometryCollectionInst : G → Bool
  gcLength : G → ℕ
  multiPolygonOfCollection : G → G
  cascadedUnion : List G → G

/-- Embedding of `split_linestring_as_simple_linestrings`
(voronoi_utils.py lines 163-171). -/
def split_linestring_as_simple_linestrings {L G : Type} (ops : ShapelyOps L G)
    (line : L) : List L :=
  if !(ops.is_simple line) then
    let mls := ops.selfIntersection line
    let mls :=
      if ops.isLineString line && ops.isMultiLineString mls then ops.linemerge mls else mls
    ops.parts mls
  else
    [line]

/-- The matching loop of `split_as_simple_segments` (lines 183-196): for each
line, in index order, consume atomic segments from the front of the global
split list while the `tol`-buffered line contains them.  If the global list is
exhausted inside the while loop (`end_mapping` in the source), processing of
the remaining lines stops.  Entries are recorded for every processed line;
since the source's `defaultdict(list)` reads a missing key as `[]`, recording
an explicit empty list is observationally identical (see `mappingLookup`). -/
def splitAssignAux {L G : Type} (ops : ShapelyOps L G) (tol : ℚ) :
    List L → List L → ℕ → List (ℕ × List L)
  | [], _, _ => []
  | line :: restLines, segs, i =>
      let consumed := segs.takeWhile (fun s => ops.bufferContains line tol s)
      let rest := segs.dropWhile (fun s => ops.bufferContains line tol s)
      if rest.isEmpty then [(i, consumed)]
      else (i, consumed) :: splitAssignAux ops tol restLines rest (i + 1)

/-- Embedding of `split_as_simple_segments` (lines 173-197).  The source reads
`all_split_lines[0]` before the loop, so an empty global split list raises an
IndexError; this failure mode is modelled by `none`. -/
def split_as_simple_segments {L G : Type} (ops : ShapelyOps L G) (lines : List L)
    (tol : ℚ) : Option (List (ℕ × List L)) :=
  let all_split_lines :=
    split_linestring_as_simple_linestrings ops (ops.mkMultiLineString lines)
  match all_split_lines with
  | [] => none
  | _ :: _ => some (splitAssignAux ops tol lines all_split_lines 0)

/-- Lookup in the returned `defaultdict(list)`: a missing key reads as `[]`. -/
def mappingLookup {L : Type} (m : List (ℕ × List L)) (i : ℕ) : List L :=
  ((m.find? (fun e => e.1 == i)).map Prod.snd).getD []

/-- Embedding of `PyVoronoiHelper.repair_bowtie_polygon` (lines 67-73). -/
def repair_bowtie_polygon {L G : Type} (ops : ShapelyOps L G) (polygon : G) : G :=
  let p_ext := ops.exterior polygon
  let self_intersection := ops.intersection p_ext p_ext
  ops.mkMultiPolygon (ops.polygonize self_intersection)

/-- Embedding of `PyVoronoiHelper.repair_polygon` (lines 58-65). -/
def repair_polygon {L G : Type} (ops : ShapelyOps L G) (polygon : G) : G :=
  let bowtie_repaired_polygon := repair_bowtie_polygon ops polygon
  if !(ops.is_valid bowtie_repaired_polygon) then ops.buffer0 polygon
  else bowtie_repaired_polygon

/-- Lines 51-53 of `get_cells_as_polygons`: build the polygon from the cell
coordinates and repair it only when it is invalid. -/
def reconstructedPolygon {L G : Type} (ops : ShapelyOps L G)
    (coordsList : List (ℚ × ℚ)) : G :=
  let polygon := ops.mkPolygon coordsList
  if !(ops.is_valid polygon) then repair_polygon ops polygon else polygon

/-- Lines 46-47: the clip rectangle built from the bounding box corners. -/
def boundingBoxOf {L G : Type} (ops : ShapelyOps L G)
    (bb : (ℚ × ℚ) × (ℚ × ℚ)) : G :=
  ops.box bb.1.1 bb.1.2 bb.2.1 bb.2.2

/-- Embedding of `PyVoronoiHelper.get_cells_as_polygons` (lines 41-56), taking
the result of `get_cells_coordiates` as input.  The `eta`/diagonal computation
feeding `get_cells_coordiates` is part of the real-valued embedding below
(`diagonalLength`). -/
def get_cells_as_polygons {L G : Type} (ops : ShapelyOps L G)
    (cells_coordinates : List (ℕ × List (ℚ × ℚ))) (bb : (ℚ × ℚ) × (ℚ × ℚ)) :
    List (ℕ × G) :=
  let bounding_box := boundingBoxOf ops bb
  cells_coordinates.filterMap (fun ic =>
    if 2 < ic.2.length then
      some (ic.1, ops.intersection (reconstructedPolygon ops ic.2) bounding_box)
    else none)

/-- External `pyvoronoi` builder interface.  `construct` models
`Pyvoronoi(scaling_factor)` followed by the `AddPoint`/`AddSegment` loops and
`Construct()` (which may raise; modelled by `Except.error`).
`cellsCoordinates` models the walk `get_cells_coordiates` performs on the
constructed diagram (that walk is embedded in detail as
`get_cells_coordiates` below); `siteOf` models `GetCell(c).site`. -/
structure PyvoronoiLib (D : Type) where
  construct : ℚ → List (ℚ × ℚ) → List (List (ℚ × ℚ)) → Except Unit D
  cellsCoordinates : D → List (ℕ × List (ℚ × ℚ))
  siteOf : D → ℕ → ℕ

structure PyVoronoiHelper (D : Type) where
  pv : D
  bounding_box_coords : (ℚ × ℚ) × (ℚ × ℚ)

/-- Embedding of `PyVoronoiHelper.__init__` (lines 22-30): there is no
try/except around `Construct()`, so a construction error propagates to the
caller unchanged. -/
def PyVoronoiHelper.init {D : Type} (lib : PyvoronoiLib D) (points : List (ℚ × ℚ))
    (segments : List (List (ℚ × ℚ))) (bb : (ℚ × ℚ) × (ℚ × ℚ))
    (scaling_factor : ℚ) : Except Unit (PyVoronoiHelper D) :=
  (lib.construct scaling_factor points segments).map (fun d => ⟨d, bb⟩)

/-- Embedding of `get_cells_as_gdf` (lines 32-39): the rows are the
`(cell id, trimmed polygon)` pairs of `get_cells_as_polygons`. -/
def get_cells_as_gdf {L G D : Type} (ops : ShapelyOps L G) (lib : PyvoronoiLib D)
    (h : PyVoronoiHelper D) : List (ℕ × G) :=
  get_cells_as_polygons ops (lib.cellsCoordinates h.pv) h.bounding_box_coords

/-- Rows of the (filtered, site-tagged) cell table whose `site` equals one of
the `k` consecutive site counters starting at `ct`: the polygons collected for
one line by the loop of lines 222-226. -/
def lineCellPolygons {G : Type} (frows : List (ℕ × G)) (ct k : ℕ) : List G :=
  (List.range k).flatMap (fun t => (frows.filter (fun r => r.1 == ct + t)).map Prod.snd)

/-- The aggregation loop of `compute_voronoi_cells_from_lines`
(lines 220-232).  `frows` is the filtered cell table tagged with site indices,
`segCounts` the number of simple segments of each line in index order, `i` the
current line index and `ct` the running site counter. -/
def aggregateLines {L G : Type} (ops : ShapelyOps L G) (frows : List (ℕ × G)) :
    List ℕ → ℕ → ℕ → List (ℕ × G)
  | [], _, _ => []
  | k :: ks, i, ct =>
      let line_polygons := lineCellPolygons frows ct k
      let merged_polygon := ops.cascadedUnion line_polygons
      let tail := aggregateLines ops frows ks (i + 1) (ct + k)
      if ops.isGeometryCollectionInst merged_polygon then
        if ops.gcLength merged_polygon = 0 then tail
        else (i, ops.multiPolygonOfCollection merged_polygon) :: tail
      else (i, merged_polygon) :: tail

inductive VErr where
  | construction : VErr
  | indexError : VErr
deriving DecidableEq, Repr

/-- Line 210: the coordinate lists of all simple segments, grouped by line
index. -/
def allSegments {L G : Type} (ops : ShapelyOps L G) (lines : List L)
    (m : List (ℕ × List L)) : List (List (ℚ × ℚ)) :=
  (List.range lines.length).flatMap (fun i => (mappingLookup m i).map ops.coords)

/-- A degenerate (zero-length) segment site: both coordinates equal. -/
def isZeroLengthSegmentCoords (c : List (ℚ × ℚ)) : Bool :=
  match c with
  | [p, q] => p == q
  | _ => false

/-- Embedding of `compute_voronoi_cells_from_lines` (lines 200-233). -/
def compute_voronoi_cells_from_lines {L G D : Type} (ops : ShapelyOps L G)
    (lib : PyvoronoiLib D) (lines : List L) (scaling_factor : ℚ) :
    Except VErr (List (ℕ × G)) :=
  match split_as_simple_segments ops lines (1 / scaling_factor) with
  | none => Except.error VErr.indexError
  | some m =>
    let all_segments := allSegments ops lines m
    let bounds := ops.boundsOf (ops.mkMultiLineString lines)
    match PyVoronoiHelper.init lib [] all_segments bounds scaling_factor with
    | Except.error _ => Except.error VErr.construction
    | Except.ok pvh =>
      let gdf := get_cells_as_gdf ops lib pvh
      let frows := (gdf.filter (fun r => ops.isPolygonInst r.2)).map
        (fun r => (lib.siteOf pvh.pv r.1, r.2))
      let segCounts := (List.range lines.length).map (fun i => (mappingLookup m i).length)
      Except.ok (aggregateLines ops frows segCounts 0 0)

/-! The half-edge diagram exposed by `pyvoronoi` after `Construct()`, and the
cell walk of `get_cells_coordiates` (lines 75-109).  Vertex coordinates are
rationals here; the arithmetic of `clip_infinite_edge` needs square roots and
is embedded over the reals further below, so the infinite-edge branch of the
walk is taken as a function argument `clipInf`. -/

structure PvVertex where
  X : ℚ
  Y : ℚ
deriving DecidableEq, Repr

/-- One `pyvoronoi` edge: `start`/`stop` are vertex indices with `-1` as the
infinite-vertex sentinel (the source's `edge.start` and `edge.end`). -/
structure PvEdge where
  start : Int
  stop : Int
  twin : ℕ
  cell : ℕ
  is_linear : Bool
deriving DecidableEq, Repr

structure PvCell where
  cell_identifier : ℕ
  site : ℕ
  edges : List ℕ
  contains_point : Bool
  contains_segment : Bool
deriving DecidableEq, Repr

/-- Diagram data read back from `pyvoronoi` (`GetVertices`, `GetCells`,
`GetEdges`), together with `DiscretizeCurvedEdge`, whose
`UnsolvableParabolaEquation` failure is modelled by `Except.error ()`. -/
structure PvDiagram where
  vertices : List PvVertex
  cells : List PvCell
  edges : List PvEdge
  discretizeCurvedEdge : ℕ → ℚ → Except Unit (List (ℚ × ℚ))

/-- Embedding of `PyVoronoiHelper.add_polygon_coordinates` (lines 153-160)
over rational coordinates. -/
def add_polygon_coordinatesQ (coordinates : List (ℚ × ℚ)) (point : ℚ × ℚ) :
    List (ℚ × ℚ) :=
  match coordinates.getLast? with
  | some last_point =>
      if last_point.1 = point.1 ∧ last_point.2 = point.2 then coordinates
      else coordinates ++ [point]
  | none => coordinates ++ [point]

/-- Processing of one edge index inside the cell loop of
`get_cells_coordiates` (lines 89-107).  `clipInf` stands for the call
`self.clip_infinite_edge(cell_coords, edge, eta)` (embedded separately over
the reals as `clip_infinite_edge`).  The curved-edge branch falls back to the
two endpoint vertices when `DiscretizeCurvedEdge` raises
`UnsolvableParabolaEquation`; the exception is caught locally and never
escapes (the function is total). -/
def processEdge (d : PvDiagram) (clipInf : List (ℚ × ℚ) → PvEdge → ℚ → List (ℚ × ℚ))
    (eta discretization_tolerance : ℚ) (cell_coords : List (ℚ × ℚ)) (e : ℕ) :
    List (ℚ × ℚ) :=
  let edge := d.edges.getD e ⟨-1, -1, 0, 0, true⟩
  let start_vertex := d.vertices.getD edge.start.toNat ⟨0, 0⟩
  let end_vertex := d.vertices.getD edge.stop.toNat ⟨0, 0⟩
  if edge.start == -1 || edge.stop == -1 then
    clipInf cell_coords edge eta
  else
    if edge.is_linear then
      add_polygon_coordinatesQ
        (add_polygon_coordinatesQ cell_coords (start_vertex.X, start_vertex.Y))
        (end_vertex.X, end_vertex.Y)
    else
      match d.discretizeCurvedEdge e discretization_tolerance with
      | Except.ok coords_to_add => cell_coords ++ coords_to_add
      | Except.error _ =>
          add_polygon_coordinatesQ
            (add_polygon_coordinatesQ cell_coords (start_vertex.X, start_vertex.Y))
            (end_vertex.X, end_vertex.Y)

/-- Embedding of `PyVoronoiHelper.get_cells_coordiates` (lines 75-109): for
each cell, fold the edge processing over its boundary edge list. -/
def get_cells_coordiates (d : PvDiagram)
    (clipInf : List (ℚ × ℚ) → PvEdge → ℚ → List (ℚ × ℚ))
    (eta discretization_tolerance : ℚ) : List (ℕ × List (ℚ × ℚ)) :=
  d.cells.map (fun c =>
    (c.cell_identifier,
      c.edges.foldl (processEdge d clipInf eta discretization_tolerance) []))

/-! Real-valued embedding of `clip_infinite_edge` (lines 112-150) and of the
`eta` computation of `get_cells_as_polygons` (line 43).  The source works with
numpy floating-point vectors; they are modelled as pairs of reals, with
`np.linalg.norm` as the Euclidean norm.  Note that numpy division by a zero
norm does not raise (it emits a non-finite value with a warning); in the real
model the division-by-zero convention of `ℝ` yields the zero vector. -/

noncomputable section

def padd (a b : ℝ × ℝ) : ℝ × ℝ := (a.1 + b.1, a.2 + b.2)

def psub (a b : ℝ × ℝ) : ℝ × ℝ := (a.1 - b.1, a.2 - b.2)

def psmul (c : ℝ) (v : ℝ × ℝ) : ℝ × ℝ := (c * v.1, c * v.2)

def pdiv (v : ℝ × ℝ) (c : ℝ) : ℝ × ℝ := (v.1 / c, v.2 / c)

/-- Euclidean norm of a 2-vector, as computed by `np.linalg.norm`. -/
def pnorm (v : ℝ × ℝ) : ℝ := Real.sqrt (v.1 ^ 2 + v.2 ^ 2)

/-- Data of a `pyvoronoi` cell as used by `clip_infinite_edge`: the
point/segment flags and the scaled site geometry retrieved by
`RetrieveScaledPoint` / `RetriveScaledSegment`. -/
structure RSiteCell where
  contains_point : Bool
  contains_segment : Bool
  point : ℝ × ℝ
  segment : (ℝ × ℝ) × (ℝ × ℝ)

open Classical in
/-- Lines 114-137 of `clip_infinite_edge`: the ray origin and the
(unnormalized) ridge direction, for the cell of the edge and the cell of its
twin. -/
def ridgeGeometry (cell twin_cell : RSiteCell) : (ℝ × ℝ) × (ℝ × ℝ) :=
  if cell.contains_point && twin_cell.contains_point then
    let first_point := cell.point
    let second_point := twin_cell.point
    (((first_point.1 + second_point.1) / 2, (first_point.2 + second_point.2) / 2),
      (first_point.2 - second_point.2, second_point.1 - first_point.1))
  else
    let os : (ℝ × ℝ) × ((ℝ × ℝ) × (ℝ × ℝ)) :=
      if cell.contains_segment then (twin_cell.point, cell.segment)
      else (cell.point, twin_cell.segment)
    let origin := os.1
    let segment := os.2
    let dx := segment.2.1 - segment.1.1
    let dy := segment.2.2 - segment.1.2
    if (decide (pnorm (psub segment.1 origin) = 0)) != cell.contains_point then
      (origin, (dy, -dx))
    else
      (origin, (-dy, dx))

def rayOrigin (cell twin_cell : RSiteCell) : ℝ × ℝ :=
  (ridgeGeometry cell twin_cell).1

/-- Line 138: `ridge_direction /= np.linalg.norm(ridge_direction)`. -/
def ridgeUnitDirection (cell twin_cell : RSiteCell) : ℝ × ℝ :=
  let d := (ridgeGeometry cell twin_cell).2
  pdiv d (pnorm d)

/-- The projected finite stand-in for an infinite ray endpoint:
`origin - ridge_direction * eta` for the start side (line 140) and
`origin + ridge_direction * eta` for the end side (line 146). -/
def projectedRayPoint (cell twin_cell : RSiteCell) (eta : ℝ) (atEnd : Bool) :
    ℝ × ℝ :=
  if atEnd then padd (rayOrigin cell twin_cell) (psmul eta (ridgeUnitDirection cell twin_cell))
  else psub (rayOrigin cell twin_cell) (psmul eta (ridgeUnitDirection cell twin_cell))

open Classical in
/-- Embedding of `PyVoronoiHelper.add_polygon_coordinates` (lines 153-160)
over real coordinates. -/
def add_polygon_coordinates (coordinates : List (ℝ × ℝ)) (point : ℝ × ℝ) :
    List (ℝ × ℝ) :=
  match coordinates.getLast? with
  | some last_point =>
      if last_point.1 = point.1 ∧ last_point.2 = point.2 then coordinates
      else coordinates ++ [point]
  | none => coordinates ++ [point]

/-- Embedding of `PyVoronoiHelper.clip_infinite_edge` (lines 112-150).
`startv`/`endv` are the coordinates of `GetVertex(edge.start)` and
`GetVertex(edge.end)`, with `none` as the `-1` infinite sentinel. -/
def clip_infinite_edge (cell twin_cell : RSiteCell) (startv endv : Option (ℝ × ℝ))
    (eta : ℝ) (cell_coords : List (ℝ × ℝ)) : List (ℝ × ℝ) :=
  let c1 :=
    match startv with
    | none => add_polygon_coordinates cell_coords (projectedRayPoint cell twin_cell eta false)
    | some v => add_polygon_coordinates cell_coords v
  match endv with
  | none => add_polygon_coordinates c1 (projectedRayPoint cell twin_cell eta true)
  | some v => add_polygon_coordinates c1 v

/-- Membership in the closed axis-aligned clip rectangle with corners
`bb.1` (minima) and `bb.2` (maxima), as built by `box(...)` on line 46. -/
def inBox (bb : (ℝ × ℝ) × (ℝ × ℝ)) (p : ℝ × ℝ) : Prop :=
  bb.1.1 ≤ p.1 ∧ p.1 ≤ bb.2.1 ∧ bb.1.2 ≤ p.2 ∧ p.2 ≤ bb.2.2

/-- Line 43: the diagonal of the bounding rectangle,
`np.linalg.norm(corner0 - corner1)`; `get_cells_as_polygons` passes it as
`eta`. -/
def diagonalLength (bb : (ℝ × ℝ) × (ℝ × ℝ)) : ℝ :=
  pnorm (psub bb.1 bb.2)

end

/-! Point-set semantics of the clipping step (line 54):
`trimmed_polygon = polygon.intersection(bounding_box)`.  The GEOS
`intersection` of two polygonal geometries is their point-set
intersection. -/

/-- Shapely polygon intersection under its point-set semantics, the operation
performed by the clipping step of `get_cells_as_polygons`. -/
def shapelyIntersection (a b : Set (ℚ × ℚ)) : Set (ℚ × ℚ) := a ∩ b

/-! Concrete instantiations of the library interfaces, used to evaluate the
embedding on explicit inputs.  `modelOps` interprets polygonal geometries in
the point-set model `SGeom (Finset ℕ)` (a geometry is a tag plus the finite
set of atoms it covers): `cascaded_union` is the union of the atom sets and
the `isinstance` tests inspect the tag, exactly the observations the
aggregation loop makes. -/

/-- Atoms covered by a geometry value in the point-set model. -/
def geomPoints : SGeom (Finset ℕ) → Finset ℕ
  | SGeom.polygon p => p
  | SGeom.multiPolygon ps => ps.foldl (fun a p => a ∪ p) ∅
  | SGeom.geometryCollection ps => ps.foldl (fun a p => a ∪ p) ∅

/-- Point-set model of `cascaded_union`: shapely returns
`GEOMETRYCOLLECTION EMPTY` on an empty argument list, and a polygonal
geometry covering the union of the arguments otherwise. -/
def cascadedUnionModel : List (SGeom (Finset ℕ)) → SGeom (Finset ℕ)
  | [] => SGeom.geometryCollection []
  | gs => SGeom.polygon (gs.foldl (fun a g => a ∪ geomPoints g) ∅)

/-- Union of the atom sets of a list of geometries. -/
def unionPoints (gs : List (SGeom (Finset ℕ))) : Finset ℕ :=
  gs.foldl (fun a g => a ∪ geomPoints g) ∅

/-- Polygon parts of a geometry value in the point-set model. -/
def geomParts : SGeom (Finset ℕ) → List (Finset ℕ)
  | SGeom.polygon p => [p]
  | SGeom.multiPolygon ps => ps
  | SGeom.geometryCollection ps => ps

/-- The point-set model instance of the shapely interface.  The line-geometry
fields are inert defaults (individual theorems override them per input). -/
def modelOps : ShapelyOps ℕ (SGeom (Finset ℕ)) where
  is_simple := fun _ => true
  selfIntersection := id
  isLineString := fun _ => false
  isMultiLineString := fun _ => false
  linemerge := id
  parts := fun l => [l]
  mkMultiLineString := fun _ => 0
  bufferContains := fun _ _ _ => false
  coords := fun _ => []
  boundsOf := fun _ => ((0, 0), (0, 0))
  mkPolygon := fun _ => SGeom.polygon ∅
  box := fun _ _ _ _ => SGeom.polygon ∅
  is_valid := fun _ => true
  exterior := id
  intersection := fun a _ => a
  polygonize := fun g => [g]
  mkMultiPolygon := fun gs => SGeom.multiPolygon (gs.flatMap geomParts)
  buffer0 := id
  isPolygonInst := fun g => match g with | SGeom.polygon _ => true | _ => false
  isGeometryCollectionInst := fun g =>
    match g with | SGeom.geometryCollection _ => true | _ => false
  gcLength := fun g => match g with | SGeom.geometryCollection ps => ps.length | _ => 0
  multiPolygonOfCollection := fun g =>
    match g with | SGeom.geometryCollection ps => SGeom.multiPolygon ps | h => h
  cascadedUnion := cascadedUnionModel

/-- The filtering and site-tagging step of `compute_voronoi_cells_from_lines`
(lines 215-216) in the point-set model: keep only rows whose geometry is a
single `Polygon` and tag each with its cell's site index. -/
def polygonSiteRows (gdf : List (ℕ × SGeom (Finset ℕ))) (site : ℕ → ℕ) :
    List (ℕ × SGeom (Finset ℕ)) :=
  (gdf.filter (fun r => modelOps.isPolygonInst r.2)).map (fun r => (site r.1, r.2))

/-- The cell table of the C2 witness: the clipped cells of sites `0` and `2`
are single polygons, the clipped cell of site `1` is a `MultiPolygon`. -/
def gdfC2 : List (ℕ × SGeom (Finset ℕ)) :=
  [(0, SGeom.polygon {1, 2}), (1, SGeom.multiPolygon [{3}]), (2, SGeom.polygon {4})]

/-- Line ops for the C4 exhaustion scenario: three lines `10, 20, 30`, a
global split list containing the single segment `99`, and `99` contained only
in line `10`'s buffer, so the global list is exhausted while processing the
first line. -/
def ops4 : ShapelyOps ℕ (SGeom (Finset ℕ)) :=
  { modelOps with
    mkMultiLineString := fun _ => 99
    bufferContains := fun line _ s => line == 10 && s == 99 }

/-- Line ops for the C10 witness: lines `5, 6`; their `MultiLineString` `7` is
not simple, its self-intersection `8` splits into the atomic segments
`[1, 2, 3]`; line `5`'s buffer contains `1, 2` and line `6`'s contains `3`. -/
def ops10 : ShapelyOps ℕ (SGeom (Finset ℕ)) :=
  { modelOps with
    is_simple := fun l => !(l == 7)
    mkMultiLineString := fun _ => 7
    selfIntersection := fun _ => 8
    parts := fun _ => [1, 2, 3]
    bufferContains := fun line _ s =>
      (line == 5 && (s == 1 || s == 2)) || (line == 6 && s == 3) }

/-- Line ops for the C8 failing input, two disjoint simple lines `0` and `1`
(for example the unit segments at `y = 0` and `y = 10`), with `2` standing for
`MultiLineString([0, 1])`.  The encoded shapely facts at this input: every
one of these three geometries is simple (a `MultiLineString` of two disjoint
simple lines is simple), and a line's `tol`-buffer contains exactly the line
itself among them (it does not contain the two-part `MultiLineString`). -/
def ops8 : ShapelyOps ℕ (SGeom (Finset ℕ)) :=
  { modelOps with
    mkMultiLineString := fun _ => 2
    bufferContains := fun line _ s => line == s }

/-- Line ops for the C1 witness: one line `42`; its `MultiLineString` `50` is
simple and contained in the line's buffer; the coordinates of `50` form a
zero-length segment. -/
def ops1 : ShapelyOps ℕ (SGeom (Finset ℕ)) :=
  { modelOps with
    mkMultiLineString := fun _ => 50
    bufferContains := fun line _ s => line == 42 && s == 50
    coords := fun _ => [(0, 0), (0, 0)] }

/-- A builder that rejects degenerate input: `Construct()` raises exactly when
some added segment has zero length. -/
def lib1 : PyvoronoiLib Unit where
  construct := fun _ _ segs =>
    if segs.any isZeroLengthSegmentCoords then Except.error () else Except.ok ()
  cellsCoordinates := fun _ => []
  siteOf := fun _ n => n

/-- Toy polygon algebra over `ℕ` for exercising the `repair_polygon` control
flow: validity is oddness, the bowtie repair of `7` is the even (invalid)
value `14`, and `buffer(0.0)` adds `100`. -/
def ops6 : ShapelyOps ℕ ℕ where
  is_simple := fun _ => true
  selfIntersection := id
  isLineString := fun _ => false
  isMultiLineString := fun _ => false
  linemerge := id
  parts := fun l => [l]
  mkMultiLineString := fun _ => 0
  bufferContains := fun _ _ _ => false
  coords := fun _ => []
  boundsOf := fun _ => ((0, 0), (0, 0))
  mkPolygon := fun _ => 1
  box := fun _ _ _ _ => 3
  is_valid := fun g => g % 2 == 1
  exterior := id
  intersection := fun a b => a + b
  polygonize := fun g => [g]
  mkMultiPolygon := fun l => l.sum
  buffer0 := fun g => g + 100
  isPolygonInst := fun _ => true
  isGeometryCollectionInst := fun _ => false
  gcLength := fun _ => 0
  multiPolygonOfCollection := id
  cascadedUnion := fun l => l.sum

/-- Instance of the shapely interface whose polygon carrier is the point set
of the geometry and whose `intersection` is the point-set intersection, for
the clipping-idempotence claim. -/
def setOps : ShapelyOps ℕ (Set (ℚ × ℚ)) where
  is_simple := fun _ => true
  selfIntersection := id
  isLineString := fun _ => false
  isMultiLineString := fun _ => false
  linemerge := id
  parts := fun l => [l]
  mkMultiLineString := fun _ => 0
  bufferContains := fun _ _ _ => false
  coords := fun _ => []
  boundsOf := fun _ => ((0, 0), (0, 0))
  mkPolygon := fun _ => Set.univ
  box := fun a b c d => {p : ℚ × ℚ | a ≤ p.1 ∧ p.1 ≤ c ∧ b ≤ p.2 ∧ p.2 ≤ d}
  is_valid := fun _ => true
  exterior := id
  intersection := shapelyIntersection
  polygonize := fun g => [g]
  mkMultiPolygon := fun _ => ∅
  buffer0 := id
  isPolygonInst := fun _ => true
  isGeometryCollectionInst := fun _ => false
  gcLength := fun _ => 0
  multiPolygonOfCollection := id
  cascadedUnion := fun _ => ∅

/-- Concrete diagram for the C7 witness: one curved finite edge between the
vertices `(0, 0)` and `(2, 3)`, whose discretization always raises
`UnsolvableParabolaEquation`. -/
def d7 : PvDiagram where
  vertices := [⟨0, 0⟩, ⟨2, 3⟩]
  cells := [⟨0, 0, [0], false, true⟩]
  edges := [⟨0, 1, 0, 0, false⟩]
  discretizeCurvedEdge := fun _ _ => Except.error ()

noncomputable section

/-- C3 counterexample data: the cell of a point site at the origin. -/
def cellC3 : RSiteCell := ⟨true, false, (0, 0), ((0, 0), (0, 0))⟩

/-- C3 counterexample data: the twin cell of a segment site from `(1, 1)` to
`(9/5, 2/5)`; both sites lie inside the bounding rectangle `cexBB`. -/
def twinC3 : RSiteCell := ⟨false, true, (0, 0), ((1, 1), (9/5, 2/5))⟩

/-- Bounding rectangle with corners `(0, 0)` and `(3, 4)`; its diagonal has
length `5`. -/
def cexBB : (ℝ × ℝ) × (ℝ × ℝ) := ((0, 0), (3, 4))

/-- C3 witness data: a point site at `(0, 0)`. -/
def wcellC3 : RSiteCell := ⟨true, false, (0, 0), ((0, 0), (0, 0))⟩

/-- C3 witness data: a point site at `(0, 2)`. -/
def wtwinC3 : RSiteCell := ⟨true, false, (0, 2), ((0, 0), (0, 0))⟩

/-- C5 counterexample data: two coincident point sites at `(1, 1)`, producing
a zero-length ridge direction. -/
def dcellC5 : RSiteCell := ⟨true, false, (1, 1), ((0, 0), (0, 0))⟩

end

/-! Helper lemmas about the split phase. -/

theorem split_as_simple_segments_eq_some {L G : Type} {ops : ShapelyOps L G}
    {lines : List L} {tol : ℚ} {m : List (ℕ × List L)}
    (h : split_as_simple_segments ops lines tol = some m) :
    m = splitAssignAux ops tol lines
      (split_linestring_as_simple_linestrings ops (ops.mkMultiLineString lines)) 0 := by
  unfold split_as_simple_segments at h
  cases hsl : split_linestring_as_simple_linestrings ops (ops.mkMultiLineString lines) with
  | nil => rw [hsl] at h; exact Option.noConfusion h
  | cons a as => rw [hsl] at h; exact (Option.some.inj h).symm

theorem splitAssignAux_map_fst {L G : Type} (ops : ShapelyOps L G) (tol : ℚ) :
    ∀ (ls segs : List L) (i : ℕ),
      (splitAssignAux ops tol ls segs i).map Prod.fst =
        List.range' i (splitAssignAux ops tol ls segs i).length := by
  intro ls
  induction ls with
  | nil => intro segs i; simp [splitAssignAux]
  | cons line restLines ih =>
      intro segs i
      simp only [splitAssignAux]
      by_cases h : (segs.dropWhile (fun s => ops.bufferContains line tol s)).isEmpty = true
      · simp [h, List.range'_one]
      · simp only [if_neg h, List.map_cons, List.length_cons, ih]
        rfl

theorem mappingLookup_eq_nil {L : Type} {m : List (ℕ × List L)} {i : ℕ}
    (h : ∀ e ∈ m, e.1 ≠ i) : mappingLookup m i = [] := by
  unfold mappingLookup
  rw [List.find?_eq_none.mpr (fun e he => by simpa using h e he)]
  rfl

theorem splitAssignAux_flatten_prefix {L G : Type} (ops : ShapelyOps L G) (tol : ℚ) :
    ∀ (ls segs : List L) (i : ℕ),
      ∃ k ≤ segs.length,
        ((splitAssignAux ops tol ls segs i).map Prod.snd).flatten = segs.take k := by
  have htake : ∀ (l1 l2 : List L) (n : ℕ),
      (l1 ++ l2).take (l1.length + n) = l1 ++ l2.take n := by
    intro l1 l2 n
    rw [List.take_append_eq_append_take, List.take_of_length_le (Nat.le_add_right _ _),
      Nat.add_sub_cancel_left]
  intro ls
  induction ls with
  | nil => intro segs i; exact ⟨0, Nat.zero_le _, by simp [splitAssignAux]⟩
  | cons line restLines ih =>
      intro segs i
      by_cases h : (segs.dropWhile (fun s => ops.bufferContains line tol s)).isEmpty = true
      · refine ⟨(segs.takeWhile (fun s => ops.bufferContains line tol s)).length,
          (List.takeWhile_prefix _).length_le, ?_⟩
        simp only [splitAssignAux, if_pos h, List.map_cons, List.map_nil,
          List.flatten_cons, List.flatten_nil, List.append_nil]
        exact List.prefix_iff_eq_take.mp (List.takeWhile_prefix _)
      · obtain ⟨k, hk, hjoin⟩ :=
          ih (segs.dropWhile (fun s => ops.bufferContains line tol s)) (i + 1)
        have hsum : (segs.takeWhile (fun s => ops.bufferContains line tol s)).length +
            (segs.dropWhile (fun s => ops.bufferContains line tol s)).length =
            segs.length := by
          rw [← List.length_append, List.takeWhile_append_dropWhile]
        refine ⟨(segs.takeWhile (fun s => ops.bufferContains line tol s)).length + k,
          by omega, ?_⟩
        simp only [splitAssignAux, if_neg h, List.map_cons, List.flatten_cons, hjoin]
        calc
          segs.takeWhile (fun s => ops.bufferContains line tol s) ++
              (segs.dropWhile (fun s => ops.bufferContains line tol s)).take k =
              (segs.takeWhile (fun s => ops.bufferContains line tol s) ++
                segs.dropWhile (fun s => ops.bufferContains line tol s)).take
                ((segs.takeWhile (fun s => ops.bufferContains line tol s)).length + k) :=
            (htake _ _ k).symm
          _ = segs.take
              ((segs.takeWhile (fun s => ops.bufferContains line tol s)).length + k) := by
            rw [List.takeWhile_append_dropWhile]

/-! Helper lemmas about the aggregation loop. -/

theorem aggregateLines_fst_bounds {L G : Type} (ops : ShapelyOps L G)
    (frows : List (ℕ × G)) :
    ∀ (ks : List ℕ) (i ct : ℕ) (e : ℕ × G), e ∈ aggregateLines ops frows ks i ct →
      i ≤ e.1 ∧ e.1 < i + ks.length := by
  intro ks
  induction ks with
  | nil => intro i ct e he; simp [aggregateLines] at he
  | cons k ks ih =>
      intro i ct e he
      simp only [aggregateLines] at he
      have hstep : e ∈ aggregateLines ops frows ks (i + 1) (ct + k) →
          i ≤ e.1 ∧ e.1 < i + (k :: ks).length := by
        intro h
        have := ih (i + 1) (ct + k) e h
        simp only [List.length_cons]
        omega
      split at he
      · split at he
        · exact hstep he
        · rcases List.mem_cons.mp he with h | h
          · rw [h]
            simp only [List.length_cons]
            omega
          · exact hstep h
      · rcases List.mem_cons.mp he with h | h
        · rw [h]
          simp only [List.length_cons]
          omega
        · exact hstep h

theorem aggregateLines_no_row_of_zero {L G : Type} (ops : ShapelyOps L G)
    (frows : List (ℕ × G))
    (hGC : ops.isGeometryCollectionInst (ops.cascadedUnion []) = true)
    (hGC0 : ops.gcLength (ops.cascadedUnion []) = 0) :
    ∀ (ks : List ℕ) (j i ct : ℕ), ks.getD j 0 = 0 →
      ∀ g : G, (i + j, g) ∉ aggregateLines ops frows ks i ct := by
  intro ks
  induction ks with
  | nil => intro j i ct hj g hmem; simp [aggregateLines] at hmem
  | cons k ks ih =>
      intro j i ct hj g hmem
      cases j with
      | zero =>
          have hk : k = 0 := by simpa using hj
          subst hk
          simp only [aggregateLines] at hmem
          have hlcp : lineCellPolygons frows ct 0 = [] := by
            simp [lineCellPolygons]
          rw [hlcp] at hmem
          rw [if_pos hGC, if_pos hGC0] at hmem
          have hb := aggregateLines_fst_bounds ops frows ks (i + 1) (ct + 0) _ hmem
          have hb1 : i + 1 ≤ i + 0 := hb.1
          omega
      | succ j' =>
          have hj' : ks.getD j' 0 = 0 := by simpa using hj
          have hidx : i + (j' + 1) = (i + 1) + j' := by omega
          simp only [aggregateLines] at hmem
          have htail : (i + (j' + 1), g) ∉ aggregateLines ops frows ks (i + 1) (ct + k) := by
            rw [hidx]
            exact ih j' (i + 1) (ct + k) hj' g
          split at hmem
          · split at hmem
            · exact htail hmem
            · rcases List.mem_cons.mp hmem with h | h
              · have h1 : i + (j' + 1) = i := congrArg Prod.fst h
                omega
              · exact htail h
          · rcases List.mem_cons.mp hmem with h | h
            · have h1 : i + (j' + 1) = i := congrArg Prod.fst h
              omega
            · exact htail h

/-! Helper lemmas about the point-set union model. -/

theorem mem_foldl_union (gs : List (SGeom (Finset ℕ))) (a : ℕ) :
    ∀ acc : Finset ℕ,
      (a ∈ gs.foldl (fun s g => s ∪ geomPoints g) acc ↔
        a ∈ acc ∨ ∃ g ∈ gs, a ∈ geomPoints g) := by
  induction gs with
  | nil => intro acc; simp
  | cons g gs ih =>
      intro acc
      rw [List.foldl_cons, ih]
      simp [Finset.mem_union, or_assoc]

theorem mem_unionPoints {gs : List (SGeom (Finset ℕ))} {a : ℕ} :
    a ∈ unionPoints gs ↔ ∃ g ∈ gs, a ∈ geomPoints g := by
  unfold unionPoints
  rw [mem_foldl_union]
  simp

theorem cascadedUnionModel_perm {l1 l2 : List (SGeom (Finset ℕ))} (hp : l1.Perm l2) :
    geomPoints (cascadedUnionModel l1) = geomPoints (cascadedUnionModel l2) := by
  cases l1 with
  | nil =>
      rw [hp.nil_eq]
  | cons a l =>
      cases l2 with
      | nil => exact absurd hp.symm.nil_eq (by simp)
      | cons b l' =>
          show unionPoints (a :: l) = unionPoints (b :: l')
          ext x
          rw [mem_unionPoints, mem_unionPoints]
          constructor
          · rintro ⟨g, hg, hx⟩
            exact ⟨g, hp.mem_iff.mp hg, hx⟩
          · rintro ⟨g, hg, hx⟩
            exact ⟨g, hp.mem_iff.mpr hg, hx⟩

theorem aggregateLines_model_points (frows : List (ℕ × SGeom (Finset ℕ))) :
    ∀ (ks : List ℕ) (i0 ct0 i : ℕ) (g : SGeom (Finset ℕ)),
      (i, g) ∈ aggregateLines modelOps frows ks i0 ct0 →
      ∃ j, j < ks.length ∧ i = i0 + j ∧
        geomPoints g =
          unionPoints (lineCellPolygons frows (ct0 + (ks.take j).sum) (ks.getD j 0)) := by
  intro ks
  induction ks with
  | nil => intro i0 ct0 i g h; simp [aggregateLines] at h
  | cons k ks ih =>
      intro i0 ct0 i g hmem
      simp only [aggregateLines] at hmem
      cases hl : lineCellPolygons frows ct0 k with
      | nil =>
          rw [hl] at hmem
          rw [if_pos (show modelOps.isGeometryCollectionInst
                (modelOps.cascadedUnion []) = true from rfl),
              if_pos (show modelOps.gcLength (modelOps.cascadedUnion []) = 0 from rfl)]
            at hmem
          obtain ⟨j, hj, hij, hpts⟩ := ih (i0 + 1) (ct0 + k) i g hmem
          refine ⟨j + 1, by simpa using hj, by omega, ?_⟩
          rw [List.take_succ_cons, List.sum_cons, List.getD_cons_succ, ← Nat.add_assoc]
          exact hpts
      | cons p ps =>
          rw [hl] at hmem
          rw [show modelOps.isGeometryCollectionInst
                (modelOps.cascadedUnion (p :: ps)) = false from rfl] at hmem
          rw [if_neg (by simp)] at hmem
          rcases List.mem_cons.mp hmem with h | h
          · have h1 := congrArg Prod.fst h
            have h2 := congrArg Prod.snd h
            simp only at h1 h2
            refine ⟨0, by simp, by omega, ?_⟩
            rw [h2]
            show unionPoints (p :: ps) = _
            rw [List.take_zero, List.sum_nil, Nat.add_zero, List.getD_cons_zero, hl]
          · obtain ⟨j, hj, hij, hpts⟩ := ih (i0 + 1) (ct0 + k) i g h
            refine ⟨j + 1, by simpa using hj, by omega, ?_⟩
            rw [List.take_succ_cons, List.sum_cons, List.getD_cons_succ, ← Nat.add_assoc]
            exact hpts

/-! Helper lemmas about the Euclidean norm model of the numpy vector
arithmetic. -/

theorem pnorm_nonneg (v : ℝ × ℝ) : 0 ≤ pnorm v := Real.sqrt_nonneg _

theorem pnorm_eq_zero {v : ℝ × ℝ} : pnorm v = 0 ↔ v = (0, 0) := by
  unfold pnorm
  rw [Real.sqrt_eq_zero (by positivity)]
  constructor
  · intro h
    have h1 : v.1 ^ 2 = 0 := by nlinarith [sq_nonneg v.1, sq_nonneg v.2]
    have h2 : v.2 ^ 2 = 0 := by nlinarith [sq_nonneg v.1, sq_nonneg v.2]
    have hv1 : v.1 = 0 := (pow_eq_zero_iff (by norm_num)).mp h1
    have hv2 : v.2 = 0 := (pow_eq_zero_iff (by norm_num)).mp h2
    exact Prod.ext_iff.mpr ⟨hv1, hv2⟩
  · intro h
    rw [h]
    norm_num

theorem pnorm_psmul (c : ℝ) (v : ℝ × ℝ) : pnorm (psmul c v) = |c| * pnorm v := by
  unfold pnorm psmul
  dsimp only
  rw [show (c * v.1) ^ 2 + (c * v.2) ^ 2 = c ^ 2 * (v.1 ^ 2 + v.2 ^ 2) by ring,
    Real.sqrt_mul (sq_nonneg c), Real.sqrt_sq_eq_abs]

theorem pdiv_eq_psmul (v : ℝ × ℝ) (c : ℝ) : pdiv v c = psmul c⁻¹ v := by
  simp [pdiv, psmul, div_eq_inv_mul]

theorem pnorm_unit {v : ℝ × ℝ} (h : v ≠ (0, 0)) : pnorm (pdiv v (pnorm v)) = 1 := by
  have hpos : 0 < pnorm v :=
    lt_of_le_of_ne (pnorm_nonneg v) (fun h0 => h (pnorm_eq_zero.mp h0.symm))
  rw [pdiv_eq_psmul, pnorm_psmul, abs_inv, abs_of_pos hpos,
    inv_mul_cancel₀ (ne_of_gt hpos)]

theorem psub_padd_cancel (a b : ℝ × ℝ) : psub (padd a b) a = b := by
  simp [psub, padd]

theorem psub_psub_cancel (a b : ℝ × ℝ) : psub (psub a b) a = psmul (-1) b := by
  simp only [psub, psmul, Prod.mk.injEq]
  constructor <;> ring

theorem dist_le_diagonal {bb : (ℝ × ℝ) × (ℝ × ℝ)} {p q : ℝ × ℝ}
    (hp : inBox bb p) (hq : inBox bb q) :
    pnorm (psub p q) ≤ diagonalLength bb := by
  obtain ⟨hp1, hp2, hp3, hp4⟩ := hp
  obtain ⟨hq1, hq2, hq3, hq4⟩ := hq
  unfold diagonalLength pnorm psub
  dsimp only
  apply Real.sqrt_le_sqrt
  have h1 : (p.1 - q.1) ^ 2 ≤ (bb.2.1 - bb.1.1) ^ 2 := sq_le_sq' (by linarith) (by linarith)
  have h2 : (p.2 - q.2) ^ 2 ≤ (bb.2.2 - bb.1.2) ^ 2 := sq_le_sq' (by linarith) (by linarith)
  have e1 : (bb.1.1 - bb.2.1) ^ 2 = (bb.2.1 - bb.1.1) ^ 2 := by ring
  have e2 : (bb.1.2 - bb.2.2) ^ 2 = (bb.2.2 - bb.1.2) ^ 2 := by ring
  linarith

theorem diagonalLength_cexBB : diagonalLength cexBB = 5 := by
  unfold diagonalLength cexBB psub pnorm
  rw [show ((0:ℝ) - 3) ^ 2 + ((0:ℝ) - 4) ^ 2 = 5 ^ 2 by norm_num,
    Real.sqrt_sq (by norm_num)]

theorem add_polygon_coordinates_nil (p : ℝ × ℝ) :
    add_polygon_coordinates [] p = [p] := rfl

theorem add_polygon_coordinates_ne (coords : List (ℝ × ℝ)) (lp p : ℝ × ℝ)
    (hlast : coords.getLast? = some lp) (hne : ¬(lp.1 = p.1 ∧ lp.2 = p.2)) :
    add_polygon_coordinates coords p = coords ++ [p] := by
  unfold add_polygon_coordinates
  rw [hlast]
  exact if_neg hne

/-- The behaviour of `clip_infinite_edge` on a degenerate (zero-length) ridge
direction in the real model: `ridge_direction /= 0` yields the zero vector,
the projected point collapses to the origin, and the coordinates are emitted
without any failure. -/
theorem clip_infinite_edge_zero_direction (cell twin_cell : RSiteCell) (eta : ℝ)
    (hd0 : (ridgeGeometry cell twin_cell).2 = (0, 0)) (v : ℝ × ℝ)
    (hv : v ≠ rayOrigin cell twin_cell) :
    clip_infinite_edge cell twin_cell none (some v) eta [] =
      [rayOrigin cell twin_cell, v] := by
  have hu : ridgeUnitDirection cell twin_cell = (0, 0) := by
    unfold ridgeUnitDirection
    rw [hd0]
    simp [pdiv]
  have hproj : projectedRayPoint cell twin_cell eta false = rayOrigin cell twin_cell := by
    unfold projectedRayPoint
    rw [if_neg (by simp), hu]
    simp [psmul, psub]
  show add_polygon_coordinates
      (add_polygon_coordinates [] (projectedRayPoint cell twin_cell eta false)) v = _
  rw [hproj, add_polygon_coordinates_nil,
    add_polygon_coordinates_ne [rayOrigin cell twin_cell] (rayOrigin cell twin_cell) v rfl
      (fun hc => hv (Prod.ext_iff.mpr ⟨hc.1.symm, hc.2.symm⟩))]
  rfl

theorem ridgeGeometry_wcell : ridgeGeometry wcellC3 wtwinC3 = ((0, 1), (-2, 0)) := by
  unfold ridgeGeometry wcellC3 wtwinC3
  norm_num

theorem ridgeGeometry_dcell : ridgeGeometry dcellC5 dcellC5 = ((1, 1), (0, 0)) := by
  unfold ridgeGeometry dcellC5
  norm_num

/-! Claim theorems. -/

/-- C1: when the input reaching the diagram builder contains a degenerate
(for example zero-length) segment site and the builder rejects such input,
the construction error raised inside `PyVoronoiHelper.__init__` propagates to
the caller of `compute_voronoi_cells_from_lines`, aborting the whole call: the
result is the construction error, and no result rows are ever produced. -/
theorem construction_error_aborts {L G D : Type} (ops : ShapelyOps L G)
    (lib : PyvoronoiLib D) (lines : List L) (scaling_factor : ℚ)
    (m : List (ℕ × List L))
    (hsplit : split_as_simple_segments ops lines (1 / scaling_factor) = some m)
    (hdeg : (allSegments ops lines m).any isZeroLengthSegmentCoords = true)
    (hrej : ∀ points segs, segs.any isZeroLengthSegmentCoords = true →
      lib.construct scaling_factor points segs = Except.error ()) :
    compute_voronoi_cells_from_lines ops lib lines scaling_factor =
      Except.error VErr.construction ∧
    ∀ rows, compute_voronoi_cells_from_lines ops lib lines scaling_factor ≠
      Except.ok rows := by
  have h1 : compute_voronoi_cells_from_lines ops lib lines scaling_factor =
      Except.error VErr.construction := by
    unfold compute_voronoi_cells_from_lines PyVoronoiHelper.init
    simp only [hsplit]
    rw [hrej [] _ hdeg]
    rfl
  exact ⟨h1, fun rows hok => by rw [h1] at hok; exact Except.noConfusion hok⟩

/-- Witness for C1: a single line whose only simple segment has the
zero-length coordinate list `[(0,0), (0,0)]`, fed to a builder that rejects
degenerate segments. -/
theorem construction_error_aborts_witness :
    compute_voronoi_cells_from_lines ops1 lib1 [42] 1 =
      Except.error VErr.construction :=
  (construction_error_aborts ops1 lib1 [42] 1 [(0, [50])] (by decide) (by decide)
    (fun points segs h => by simp only [lib1]; rw [if_pos h])).1

/-- C2 counterexample: a line with one sub-segment whose site's clipped cell
is a `MultiPolygon` covering the nonempty atom set `{1, 2}`.  The row filter
`isinstance(i, Polygon)` of line 215 drops the cell before aggregation, so the
line produces no aggregated row at all, instead of the union of all its
clipped cells demanded by the claim (which is nonempty here). -/
theorem aggregate_drops_multipolygon_cell :
    aggregateLines modelOps
      (polygonSiteRows [(0, SGeom.multiPolygon [{1}, {2}])] (fun c => c)) [1] 0 0 = [] ∧
    geomPoints (SGeom.multiPolygon [{1}, {2}]) ≠ (∅ : Finset ℕ) := by decide

/-- C2 (amended): in the point-set model, every aggregated row `(i, g)` of the
aggregation loop covers exactly the union of those clipped cells of line `i`'s
sub-segments' sites whose clipped geometry is a single `Polygon` (cells whose
clipped geometry is a `MultiPolygon` or another non-`Polygon` geometry are
excluded by the row filter of line 215), and the union is independent of the
order in which the cells are combined. -/
theorem aggregated_line_geometry (gdf : List (ℕ × SGeom (Finset ℕ))) (site : ℕ → ℕ)
    (segCounts : List ℕ) (i : ℕ) (g : SGeom (Finset ℕ))
    (hmem : (i, g) ∈ aggregateLines modelOps (polygonSiteRows gdf site) segCounts 0 0) :
    (∃ j, j < segCounts.length ∧ i = j ∧
      geomPoints g = unionPoints (lineCellPolygons (polygonSiteRows gdf site)
        ((segCounts.take j).sum) (segCounts.getD j 0))) ∧
    ∀ l1 l2 : List (SGeom (Finset ℕ)), l1.Perm l2 →
      geomPoints (modelOps.cascadedUnion l1) = geomPoints (modelOps.cascadedUnion l2) := by
  constructor
  · obtain ⟨j, hj, hij, hpts⟩ :=
      aggregateLines_model_points (polygonSiteRows gdf site) segCounts 0 0 i g hmem
    rw [Nat.zero_add] at hpts
    exact ⟨j, hj, by omega, hpts⟩
  · intro l1 l2 hp
    exact cascadedUnionModel_perm hp

/-- Witness for the amended C2: three cells for sites `0, 1, 2`, of which the
cell of site `1` is a `MultiPolygon`; line `0` owns sites `0, 1` and line `1`
owns site `2`.  Line `0`'s aggregated row covers exactly the atoms of its
single-`Polygon` cells, and the model union is invariant under a concrete
permutation. -/
theorem aggregated_line_geometry_witness :
    geomPoints (SGeom.polygon ({1, 2} : Finset ℕ)) =
      unionPoints (lineCellPolygons (polygonSiteRows gdfC2 (fun c => c)) 0 2) ∧
    geomPoints (modelOps.cascadedUnion [SGeom.polygon {1}, SGeom.polygon {2}]) =
      geomPoints (modelOps.cascadedUnion [SGeom.polygon {2}, SGeom.polygon {1}]) := by
  have h := aggregated_line_geometry gdfC2 (fun c => c) [2, 1] 0
    (SGeom.polygon {1, 2}) (by decide)
  constructor
  · obtain ⟨j, hj, hij, hpts⟩ := h.1
    rw [hij.symm] at hpts
    simpa using hpts
  · exact h.2 _ _ (by decide)

/-- C4: when the global atomic segment list is exhausted before all input
lines have been matched, every remaining (unmatched) line reads as the empty
list in the returned mapping, no exception is raised (the mapping is
returned), and consequently such a line contributes no row to the aggregated
result: its empty polygon list unions to an empty `GeometryCollection`, which
the aggregation loop skips. -/
theorem split_exhaustion_silent {L G : Type} (ops : ShapelyOps L G) (lines : List L)
    (tol : ℚ) (m : List (ℕ × List L))
    (hsplit : split_as_simple_segments ops lines tol = some m)
    (_hex : m.length < lines.length)
    (hGC : ops.isGeometryCollectionInst (ops.cascadedUnion []) = true)
    (hGC0 : ops.gcLength (ops.cascadedUnion []) = 0)
    (i : ℕ) (hi : m.length ≤ i) :
    mappingLookup m i = [] ∧
    ∀ (frows : List (ℕ × G)) (g : G),
      (i, g) ∉ aggregateLines ops frows
        ((List.range lines.length).map (fun j => (mappingLookup m j).length)) 0 0 := by
  have hm := split_as_simple_segments_eq_some hsplit
  have hkeys : m.map Prod.fst = List.range m.length := by
    rw [hm, splitAssignAux_map_fst, List.range_eq_range']
  have hlook : ∀ i', m.length ≤ i' → mappingLookup m i' = [] := by
    intro i' hi'
    apply mappingLookup_eq_nil
    intro e he hcontra
    have hmem : e.1 ∈ m.map Prod.fst := List.mem_map_of_mem Prod.fst he
    rw [hkeys, List.mem_range] at hmem
    omega
  refine ⟨hlook i hi, ?_⟩
  intro frows g hmem
  by_cases hlin : i < lines.length
  · have hkd : ((List.range lines.length).map
        (fun j => (mappingLookup m j).length)).getD i 0 = 0 := by
      rw [List.getD_eq_getElem?_getD, List.getElem?_map, List.getElem?_range hlin]
      simp [hlook i hi]
    have hnot := aggregateLines_no_row_of_zero ops frows hGC hGC0 _ i 0 0 hkd g
    rw [Nat.zero_add] at hnot
    exact hnot hmem
  · have hb := aggregateLines_fst_bounds ops frows _ 0 0 (i, g) hmem
    have hb2 : i < 0 + ((List.range lines.length).map
        (fun j => (mappingLookup m j).length)).length := hb.2
    simp at hb2
    omega

/-- Witness for C4: three lines, a single-element global split list consumed
entirely by the first line, so lines `1` and `2` are left unmatched; line `2`
reads as empty and yields no aggregated row. -/
theorem split_exhaustion_silent_witness :
    mappingLookup [((0 : ℕ), ([99] : List ℕ))] 2 = [] ∧
    ((2 : ℕ), SGeom.polygon (∅ : Finset ℕ)) ∉ aggregateLines ops4 []
      ((List.range ([10, 20, 30] : List ℕ).length).map
        (fun j => (mappingLookup [((0 : ℕ), ([99] : List ℕ))] j).length)) 0 0 := by
  have h := split_exhaustion_silent ops4 [10, 20, 30] 1 [(0, [99])] (by decide) (by decide)
    rfl rfl 2 (by decide)
  exact ⟨h.1, h.2 [] (SGeom.polygon ∅)⟩

/-- C6: `repair_polygon` attempts the bowtie repair (polygonizing the exterior
ring's self-intersection) first; the zero-distance buffer fallback is applied
exactly when the bowtie result is still invalid; the function is total — it
returns the buffer result to the caller even when that result remains invalid
(there is no exception path); and `get_cells_as_polygons` invokes the repair
only when the reconstructed polygon is invalid. -/
theorem repair_polygon_control_flow {L G : Type} (ops : ShapelyOps L G) (p : G) :
    (ops.is_valid (repair_bowtie_polygon ops p) = false →
      repair_polygon ops p = ops.buffer0 p) ∧
    (ops.is_valid (repair_bowtie_polygon ops p) = true →
      repair_polygon ops p = repair_bowtie_polygon ops p) ∧
    ∀ coordsList : List (ℚ × ℚ), ops.is_valid (ops.mkPolygon coordsList) = true →
      reconstructedPolygon ops coordsList = ops.mkPolygon coordsList := by
  refine ⟨fun h => ?_, fun h => ?_, fun c h => ?_⟩
  · unfold repair_polygon
    simp [h]
  · unfold repair_polygon
    simp [h]
  · unfold reconstructedPolygon
    simp [h]

/-- Witness for C6: in the toy polygon algebra, the bowtie repair of `7`
yields the invalid value `14`, so the buffer fallback is returned; and a valid
reconstructed polygon is not repaired. -/
theorem repair_polygon_control_flow_witness :
    repair_polygon ops6 7 = ops6.buffer0 7 ∧
    reconstructedPolygon ops6 [(0, 0), (1, 0), (0, 1)] =
      ops6.mkPolygon [(0, 0), (1, 0), (0, 1)] :=
  ⟨(repair_polygon_control_flow ops6 7).1 (by decide),
    (repair_polygon_control_flow ops6 7).2.2 [(0, 0), (1, 0), (0, 1)] (by decide)⟩

/-- C7: when a curved finite edge's discretization raises the
unsolvable-parabola error, the cell walk recovers locally, appending only the
edge's two endpoint vertex coordinates (through the deduplicating
`add_polygon_coordinates`) to the cell's coordinate list; the failure is not
surfaced to the caller — the walk returns this value normally. -/
theorem curved_edge_discretization_fallback (d : PvDiagram)
    (clipInf : List (ℚ × ℚ) → PvEdge → ℚ → List (ℚ × ℚ))
    (eta tol : ℚ) (cell_coords : List (ℚ × ℚ)) (e : ℕ) (edge : PvEdge)
    (hedge : d.edges.getD e ⟨-1, -1, 0, 0, true⟩ = edge)
    (hs : edge.start ≠ -1) (hf : edge.stop ≠ -1) (hl : edge.is_linear = false)
    (hdisc : d.discretizeCurvedEdge e tol = Except.error ()) :
    processEdge d clipInf eta tol cell_coords e =
      add_polygon_coordinatesQ
        (add_polygon_coordinatesQ cell_coords
          ((d.vertices.getD edge.start.toNat ⟨0, 0⟩).X,
            (d.vertices.getD edge.start.toNat ⟨0, 0⟩).Y))
        ((d.vertices.getD edge.stop.toNat ⟨0, 0⟩).X,
          (d.vertices.getD edge.stop.toNat ⟨0, 0⟩).Y) := by
  unfold processEdge
  rw [hedge]
  rw [if_neg (by simp [hs, hf])]
  rw [if_neg (by simp [hl])]
  rw [hdisc]

/-- Witness for C7: the concrete diagram `d7`, whose single curved edge fails
to discretize; the walk emits exactly the two endpoint vertices. -/
theorem curved_edge_discretization_fallback_witness :
    processEdge d7 (fun c _ _ => c) 1 1 [] 0 = [(0, 0), (2, 3)] := by
  rw [curved_edge_discretization_fallback d7 (fun c _ _ => c) 1 1 [] 0
    ⟨0, 1, 0, 0, false⟩ (by decide) (by decide) (by decide) (by decide) rfl]
  decide

/-- C8: evaluation of the code at the failing input.  Both input lines are
simple and `split_linestring_as_simple_linestrings` does return each of them
unchanged as its only element; but `split_as_simple_segments` first wraps the
whole input in one `MultiLineString`, and for two disjoint simple lines that
`MultiLineString` is itself simple, so the global split list is the single
un-split `MultiLineString`, which no individual line's buffer contains —
every line receives zero segments instead of one sub-segment chain equal to
itself. -/
theorem simple_lines_zero_segments :
    ops8.is_simple 0 = true ∧ ops8.is_simple 1 = true ∧
    split_linestring_as_simple_linestrings ops8 0 = [0] ∧
    split_linestring_as_simple_linestrings ops8 1 = [1] ∧
    split_as_simple_segments ops8 [0, 1] 1 = some [(0, []), (1, [])] ∧
    mappingLookup [((0 : ℕ), ([] : List ℕ)), (1, [])] 0 = [] ∧
    mappingLookup [((0 : ℕ), ([] : List ℕ)), (1, [])] 1 = [] := by decide

/-- C9: clipping is idempotent under the point-set semantics of the shapely
intersection performed at line 54: `(p ∩ r) ∩ r = p ∩ r`, and consequently
every cell polygon output by `get_cells_as_polygons` is a fixed point of a
further clip against the same bounding box. -/
theorem clipping_idempotent {L : Type} (ops : ShapelyOps L (Set (ℚ × ℚ)))
    (hI : ops.intersection = shapelyIntersection) :
    (∀ p r : Set (ℚ × ℚ),
      shapelyIntersection (shapelyIntersection p r) r = shapelyIntersection p r) ∧
    ∀ (cells : List (ℕ × List (ℚ × ℚ))) (bb : (ℚ × ℚ) × (ℚ × ℚ))
      (e : ℕ × Set (ℚ × ℚ)),
      e ∈ get_cells_as_polygons ops cells bb →
      shapelyIntersection e.2 (boundingBoxOf ops bb) = e.2 := by
  have hid : ∀ p r : Set (ℚ × ℚ),
      shapelyIntersection (shapelyIntersection p r) r = shapelyIntersection p r := by
    intro p r
    unfold shapelyIntersection
    rw [Set.inter_assoc, Set.inter_self]
  refine ⟨hid, ?_⟩
  intro cells bb e he
  simp only [get_cells_as_polygons, List.mem_filterMap] at he
  obtain ⟨ic, _, hic⟩ := he
  split at hic
  · have he2 := (Option.some.inj hic).symm
    rw [he2]
    rw [hI]
    exact hid _ _
  · exact Option.noConfusion hic

/-- Witness for C9: a concrete three-coordinate cell clipped to the box
`((0,0), (1,1))` is unchanged by a second clip. -/
theorem clipping_idempotent_witness :
    shapelyIntersection
      (setOps.intersection (reconstructedPolygon setOps [(0, 0), (1, 0), (0, 1)])
        (boundingBoxOf setOps ((0, 0), (1, 1))))
      (boundingBoxOf setOps ((0, 0), (1, 1))) =
    setOps.intersection (reconstructedPolygon setOps [(0, 0), (1, 0), (0, 1)])
      (boundingBoxOf setOps ((0, 0), (1, 1))) :=
  (clipping_idempotent setOps rfl).2 [(0, [(0, 0), (1, 0), (0, 1)])] ((0, 0), (1, 1))
    (0, setOps.intersection (reconstructedPolygon setOps [(0, 0), (1, 0), (0, 1)])
      (boundingBoxOf setOps ((0, 0), (1, 1))))
    (List.mem_singleton.mpr rfl)

/-- C10: invariants of `split_as_simple_segments`: the recorded line indices
are exactly `0, 1, ...` in increasing order (so the per-line lists are
pairwise disjoint slices, each atomic segment position being consumed at most
once — the consumption index only advances), and the concatenation of the
per-line lists in increasing line-index order is exactly a contiguous prefix
of the global ordered split list. -/
theorem split_mapping_contiguous_prefix {L G : Type} (ops : ShapelyOps L G)
    (lines : List L) (tol : ℚ) (m : List (ℕ × List L))
    (hsplit : split_as_simple_segments ops lines tol = some m) :
    m.map Prod.fst = List.range m.length ∧
    ∃ k ≤ (split_linestring_as_simple_linestrings ops
        (ops.mkMultiLineString lines)).length,
      (m.map Prod.snd).flatten =
        (split_linestring_as_simple_linestrings ops
          (ops.mkMultiLineString lines)).take k := by
  have hm := split_as_simple_segments_eq_some hsplit
  constructor
  · rw [hm, splitAssignAux_map_fst, List.range_eq_range']
  · rw [hm]
    exact splitAssignAux_flatten_prefix ops tol lines _ 0

/-- C3 (amended): for an unbounded edge whose computed ridge direction is
nonzero and `eta ≥ 0`, the projected ray endpoint lies at distance exactly
`eta` from the computed origin; and whenever the origin lies in the closed
clip rectangle and `eta` strictly exceeds the rectangle's diagonal, the
projected point lies outside the rectangle (so the subsequent intersection
with the rectangle is unaffected by the projection distance).  With `eta`
merely equal to the diagonal — the value `get_cells_as_polygons` passes — the
projected point can land on the rectangle boundary; see the
counterexample. -/
theorem projected_ray_point_distance (cell twin_cell : RSiteCell) (eta : ℝ)
    (bb : (ℝ × ℝ) × (ℝ × ℝ)) (atEnd : Bool)
    (hd : (ridgeGeometry cell twin_cell).2 ≠ (0, 0)) (heta : 0 ≤ eta) :
    pnorm (psub (projectedRayPoint cell twin_cell eta atEnd)
      (rayOrigin cell twin_cell)) = eta ∧
    (inBox bb (rayOrigin cell twin_cell) → diagonalLength bb < eta →
      ¬ inBox bb (projectedRayPoint cell twin_cell eta atEnd)) := by
  have hunit : pnorm (ridgeUnitDirection cell twin_cell) = 1 := by
    unfold ridgeUnitDirection
    exact pnorm_unit hd
  have hsm : pnorm (psmul eta (ridgeUnitDirection cell twin_cell)) = eta := by
    rw [pnorm_psmul, hunit, abs_of_nonneg heta, mul_one]
  have hdist : pnorm (psub (projectedRayPoint cell twin_cell eta atEnd)
      (rayOrigin cell twin_cell)) = eta := by
    cases atEnd with
    | true =>
        unfold projectedRayPoint
        rw [if_pos rfl, psub_padd_cancel, hsm]
    | false =>
        unfold projectedRayPoint
        rw [if_neg (by simp), psub_psub_cancel, pnorm_psmul, hsm]
        norm_num
  refine ⟨hdist, fun hin hlt hq => ?_⟩
  have hle := dist_le_diagonal hq hin
  rw [hdist] at hle
  linarith

open Classical in
theorem ridgeGeometry_cellC3 :
    ridgeGeometry cellC3 twinC3 = ((0, 0), (-(3/5 : ℝ), -(4/5 : ℝ))) := by
  have hdec : (decide (pnorm (psub (((1 : ℝ), (1 : ℝ))) (((0 : ℝ), (0 : ℝ)))) = 0))
      = false := by
    apply decide_eq_false
    rw [show psub (((1 : ℝ), (1 : ℝ))) (((0 : ℝ), (0 : ℝ))) = ((1 : ℝ), (1 : ℝ)) by
      simp [psub]]
    rw [pnorm_eq_zero]
    norm_num [Prod.ext_iff]
  have hP : ¬ pnorm (psub (((1 : ℝ), (1 : ℝ))) (((0 : ℝ), (0 : ℝ)))) = 0 := by
    rw [show psub (((1 : ℝ), (1 : ℝ))) (((0 : ℝ), (0 : ℝ))) = ((1 : ℝ), (1 : ℝ)) by
      simp [psub]]
    rw [pnorm_eq_zero]
    norm_num [Prod.ext_iff]
  have hP1 : ¬ pnorm (psub (1 : ℝ × ℝ) (0 : ℝ × ℝ)) = 0 := hP
  unfold ridgeGeometry cellC3 twinC3
  norm_num [hdec, hP, hP1]

theorem pnorm_unitvec : pnorm (-(3/5 : ℝ), -(4/5 : ℝ)) = 1 := by
  unfold pnorm
  rw [show (-(3/5 : ℝ)) ^ 2 + (-(4/5 : ℝ)) ^ 2 = 1 by norm_num, Real.sqrt_one]

/-- C3 counterexample: with `eta` exactly equal to the diagonal of the
bounding rectangle (the value `get_cells_as_polygons` uses), the projected
ray endpoint need not lie outside the clip rectangle.  For a point site at
the rectangle corner `(0, 0)` and a segment site from `(1, 1)` to
`(9/5, 2/5)` (both sites inside the rectangle `((0, 0), (3, 4))`, whose
diagonal is `5`), the projected point is the opposite corner `(3, 4)`, which
lies inside the closed rectangle. -/
theorem projected_ray_point_not_outside :
    diagonalLength cexBB = 5 ∧
    projectedRayPoint cellC3 twinC3 (diagonalLength cexBB) false = (3, 4) ∧
    inBox cexBB (rayOrigin cellC3 twinC3) ∧
    inBox cexBB (3, 4) := by
  refine ⟨diagonalLength_cexBB, ?_, ?_, ?_⟩
  · rw [diagonalLength_cexBB]
    unfold projectedRayPoint rayOrigin ridgeUnitDirection
    rw [if_neg (by simp), ridgeGeometry_cellC3]
    dsimp only
    rw [pnorm_unitvec]
    norm_num [pdiv, psmul, psub]
  · unfold rayOrigin
    rw [ridgeGeometry_cellC3]
    norm_num [inBox, cexBB]
  · norm_num [inBox, cexBB]

/-- Witness for the amended C3: two point sites `(0, 0)` and `(0, 2)` give
origin `(0, 1)` and a unit ridge direction; with `eta = 7`, strictly above
the diagonal `5` of the rectangle `((0, 0), (3, 4))`, the projected endpoint
is at distance `7` from the origin and lies outside the rectangle. -/
theorem projected_ray_point_distance_witness :
    pnorm (psub (projectedRayPoint wcellC3 wtwinC3 7 true)
      (rayOrigin wcellC3 wtwinC3)) = 7 ∧
    ¬ inBox cexBB (projectedRayPoint wcellC3 wtwinC3 7 true) := by
  have hd : (ridgeGeometry wcellC3 wtwinC3).2 ≠ (0, 0) := by
    rw [ridgeGeometry_wcell]
    norm_num [Prod.ext_iff]
  have h := projected_ray_point_distance wcellC3 wtwinC3 7 cexBB true hd (by norm_num)
  refine ⟨h.1, h.2 ?_ ?_⟩
  · unfold rayOrigin
    rw [ridgeGeometry_wcell]
    norm_num [inBox, cexBB]
  · rw [diagonalLength_cexBB]
    norm_num

/-- C5 (amended): the ridge direction is normalized (divided by its Euclidean
norm) before being scaled by `eta` — for a nonzero direction the stored unit
vector has norm one, and the scaled offset has norm exactly `eta`.  For a
degenerate (zero-length) direction, however, the operation is not an error:
`clip_infinite_edge` has no failure path and still emits a coordinate for the
infinite vertex (the origin itself under the real-valued division-by-zero
convention; numpy emits a non-finite coordinate after a warning, likewise
without raising). -/
theorem ridge_direction_normalized_degenerate_emits (cell twin_cell : RSiteCell)
    (eta : ℝ) :
    ((ridgeGeometry cell twin_cell).2 ≠ (0, 0) →
      pnorm (ridgeUnitDirection cell twin_cell) = 1 ∧
      (0 ≤ eta → pnorm (psmul eta (ridgeUnitDirection cell twin_cell)) = eta)) ∧
    ((ridgeGeometry cell twin_cell).2 = (0, 0) →
      ∀ v : ℝ × ℝ, v ≠ rayOrigin cell twin_cell →
        clip_infinite_edge cell twin_cell none (some v) eta [] =
          [rayOrigin cell twin_cell, v]) := by
  constructor
  · intro hd
    have hunit : pnorm (ridgeUnitDirection cell twin_cell) = 1 := by
      unfold ridgeUnitDirection
      exact pnorm_unit hd
    exact ⟨hunit, fun heta => by rw [pnorm_psmul, hunit, abs_of_nonneg heta, mul_one]⟩
  · intro hd0 v hv
    exact clip_infinite_edge_zero_direction cell twin_cell eta hd0 v hv

/-- C5 counterexample: on the degenerate input of two coincident point sites
at `(1, 1)` — which produces a zero-length ridge direction — the operation is
not an error: `clip_infinite_edge` returns normally and emits coordinates,
here the projected coordinate (the origin `(1, 1)` in the real model; numpy
would emit NaN, likewise without raising) followed by the finite end vertex
`(5, 5)`. -/
theorem clip_infinite_edge_degenerate_no_error :
    clip_infinite_edge dcellC5 dcellC5 none (some (5, 5)) 10 [] =
      [(1, 1), (5, 5)] := by
  have h := clip_infinite_edge_zero_direction dcellC5 dcellC5 10
    (by rw [ridgeGeometry_dcell]) (5, 5)
    (by unfold rayOrigin; rw [ridgeGeometry_dcell]; norm_num [Prod.ext_iff])
  rw [h]
  unfold rayOrigin
  rw [ridgeGeometry_dcell]

/-- Witness for the amended C5: a nonzero-direction instance (two point sites
`(0, 0)`, `(0, 2)`) where normalization yields a unit vector and an
`eta = 7` offset of norm `7`; and a degenerate instance (coincident sites at
`(1, 1)`) where the function still returns an emitted coordinate list. -/
theorem ridge_direction_normalized_degenerate_emits_witness :
    (pnorm (ridgeUnitDirection wcellC3 wtwinC3) = 1 ∧
      pnorm (psmul 7 (ridgeUnitDirection wcellC3 wtwinC3)) = 7) ∧
    clip_infinite_edge dcellC5 dcellC5 none (some (7, 7)) 3 [] =
      [rayOrigin dcellC5 dcellC5, (7, 7)] := by
  constructor
  · have h := (ridge_direction_normalized_degenerate_emits wcellC3 wtwinC3 7).1
      (by rw [ridgeGeometry_wcell]; norm_num [Prod.ext_iff])
    exact ⟨h.1, h.2 (by norm_num)⟩
  · exact (ridge_direction_normalized_degenerate_emits dcellC5 dcellC5 3).2
      (by rw [ridgeGeometry_dcell]) (7, 7)
      (by unfold rayOrigin; rw [ridgeGeometry_dcell]; norm_num [Prod.ext_iff])

/-- Witness for C10 at a two-line input whose global split list `[1, 2, 3]` is
distributed as `[1, 2]` to line `0` and `[3]` to line `1`. -/
theorem split_mapping_contiguous_prefix_witness :
    ([((0 : ℕ), ([1, 2] : List ℕ)), (1, [3])].map Prod.fst =
      List.range ([((0 : ℕ), ([1, 2] : List ℕ)), (1, [3])].length)) ∧
    ∃ k ≤ (split_linestring_as_simple_linestrings ops10
        (ops10.mkMultiLineString [5, 6])).length,
      (([((0 : ℕ), ([1, 2] : List ℕ)), (1, [3])].map Prod.snd)).flatten =
        (split_linestring_as_simple_linestrings ops10
          (ops10.mkMultiLineString [5, 6])).take k :=
  split_mapping_contiguous_prefix ops10 [5, 6] 1 [(0, [1, 2]), (1, [3])] (by decide)

end Geonetworkx
